import Mathlib

/-!
# Verification of the browser/page lifecycle manager

Shallow embedding of `src/browser-manager.ts` (class `BrowserManager`) and of
the graceful-shutdown entry point of the MCP server, together with proofs and
refutations of the specification's claims about them.

Conventions:
* timestamps (`Date.now()`, `createdAt.getTime()`) are `Nat` milliseconds;
* a puppeteer `Page` handle is identified by a `Nat` id; whether its
  underlying tab is closed (`page.isClosed()`) is an external fact, passed in
  as a predicate `closed : Nat → Bool`;
* the page pool `this.pages : Map<string, PageInfo>` is an insertion-ordered
  association list with unique keys, exactly like a JS `Map`;
* effects performed against the outside world (closing a page, launching or
  closing the browser, starting or clearing a timer, `page.goto`) are recorded
  in an explicit effect list.
-/

namespace BrowserMgr

/-! ## The WHATWG `URL` fragment used by `normalizeUrl`

`normalizeUrl` calls `new URL(url)` and returns `urlObj.href`.  We model the
fragment of the WHATWG URL parser that is exercised by the claims: absolute
`http:`/`https:` URLs written with explicit `//`, a non-empty lower-case ASCII
host made of letters, digits, `.` and `-`, and an optional `/`-initiated path.
Everything outside this fragment is rejected, which matches the real parser on
the inputs appearing in the claims (a bare host such as `example.com` has no
scheme and makes `new URL` throw).  The serializer (`href`) appends the root
path `/` when the path is empty, as the real one does. -/

def isHostChar (c : Char) : Bool :=
  (('a' ≤ c) && (c ≤ 'z')) || (('0' ≤ c) && (c ≤ '9')) || c == '.' || c == '-'

def isPathChar (c : Char) : Bool :=
  isHostChar c || c == '/' || c == '_' || c == '~' || c == '%' || c == '?' ||
    c == '=' || c == '&' || c == '#'

/-- Drop the literal character list `pre` from the front of `cs`,
returning the remainder, or `none` when `pre` is not at the front. -/
def dropPre : List Char → List Char → Option (List Char)
  | [], cs => some cs
  | _ :: _, [] => none
  | p :: ps, c :: cs => if p = c then dropPre ps cs else none

/-- A parsed absolute `http`/`https` URL: scheme, host, and the remainder
(path-and-after), which is either empty or starts with `/`. -/
structure ParsedUrl where
  scheme : List Char
  host : List Char
  rest : List Char
  deriving DecidableEq, Repr

/-- Parse the authority-and-after part: a non-empty host, then either nothing
or a `/`-initiated remainder of path characters. -/
def parseAfterScheme (scheme cs : List Char) : Option ParsedUrl :=
  let host := cs.takeWhile isHostChar
  let rest := cs.drop host.length
  if host.isEmpty then none
  else if rest.isEmpty then some ⟨scheme, host, []⟩
  else if rest.head? == some '/' && rest.all isPathChar then some ⟨scheme, host, rest⟩
  else none

/-- The modelled `new URL(url)`: succeeds exactly on the fragment described
above. -/
def parseUrl (cs : List Char) : Option ParsedUrl :=
  match dropPre "http://".data cs with
  | some rest => parseAfterScheme "http".data rest
  | none =>
    match dropPre "https://".data cs with
    | some rest => parseAfterScheme "https".data rest
    | none => none

/-- The modelled `urlObj.href`: scheme, `://`, host, and the path (the root
path `/` when the parsed path is empty). -/
def hrefOf (u : ParsedUrl) : List Char :=
  u.scheme ++ "://".data ++ u.host ++ (if u.rest.isEmpty then "/".data else u.rest)

/-- Model of `url.startsWith(pre)` on character lists. -/
def startsWithPre (pre cs : List Char) : Bool :=
  (dropPre pre cs).isSome

/-- Source `BrowserManager.normalizeUrl` (src/browser-manager.ts:468-479): try
`new URL(url).href`; on a parse failure, if the string does not start with
`http://` or `https://`, return `'https://' + url`, otherwise return `url`
unchanged.  Note that the fallback does **not** re-parse the prefixed
string. -/
def normalizeUrl (url : String) : String :=
  match parseUrl url.data with
  | some u => String.mk (hrefOf u)
  | none =>
    if !(startsWithPre "http://".data url.data) && !(startsWithPre "https://".data url.data) then
      String.mk ("https://".data ++ url.data)
    else
      url

/-! ## The page pool

`this.pages : Map<string, PageInfo>`, insertion-ordered with unique keys. -/

/-- Source `PageInfo` (src/types.ts): the pooled page handle, the normalized URL it
was stored under, and its creation timestamp (`Date`, in ms). -/
structure PageInfo where
  pageId : Nat
  url : String
  createdAt : Nat
  deriving DecidableEq, Repr

/-- The pool: `Map<string, PageInfo>` as an insertion-ordered association
list.  Well-formedness (unique keys) is a hypothesis where needed. -/
abbrev Pool := List (String × PageInfo)

/-- Externally-performed actions recorded by the model. -/
inductive Effect where
  | closePage (pageId : Nat)
  | newPage (pageId : Nat)
  | goto (pageId : Nat) (url : String)
  | stopTimer (timerId : Nat)
  | closeBrowser (browserId : Nat)
  deriving DecidableEq, Repr

/-- Model of `Map.get` / `Map.has`: first binding of the key. -/
def lookupPool (pool : Pool) (key : String) : Option PageInfo :=
  match pool.find? (fun e => e.1 == key) with
  | some e => some e.2
  | none => none

/-- Model of `Map.delete`: remove the binding of the key, preserving the order of the
other bindings. -/
def deleteKey (pool : Pool) (key : String) : Pool :=
  pool.filter (fun e => e.1 != key)

/-- Model of `Map.set` on a key not currently present: appends at the end (JS `Map`
insertion order). -/
def insertEntry (pool : Pool) (key : String) (info : PageInfo) : Pool :=
  pool ++ [(key, info)]

/-- Comparator of `cleanupOldPagesIfNeeded`:
`a[1].createdAt.getTime() - b[1].createdAt.getTime()` sorts ascending by
creation time. -/
def oldestFirst (a b : String × PageInfo) : Bool :=
  a.2.createdAt ≤ b.2.createdAt

/-- Stable insertion step: `sortOldest` inserts each element into the sorted
suffix built from the elements that follow it in the original list, so for
stability the inserted element must land *before* every already-placed
element it is not strictly younger than (`oldestFirst x y`, i.e.
`x.createdAt ≤ y.createdAt`): equal-`createdAt` entries then keep their
original (Map-insertion) relative order, as the stable
`Array.prototype.sort` does.  `sortOldest_stable` proves this. -/
def insertOldest (x : String × PageInfo) : Pool → Pool
  | [] => [x]
  | y :: ys => if oldestFirst x y then x :: y :: ys else y :: insertOldest x ys

/-- Stable sort by ascending `createdAt`, modelling
`Array.from(this.pages.entries()).sort((a, b) => a[1].createdAt - b[1].createdAt)`
(stable per ES2019). -/
def sortOldest : Pool → Pool
  | [] => []
  | x :: xs => insertOldest x (sortOldest xs)

/-- Source `BrowserManager.cleanupOldPagesIfNeeded` (src/browser-manager.ts:386-407),
with `maxPages` a parameter (the source fixes it to 5): when the pool holds
`maxPages` or more entries, sort by ascending creation time, take the first
`size - maxPages + 1` entries, close each of their handles that is still
live, and delete each of their keys from the pool. -/
def cleanupOldPagesIfNeeded (closed : Nat → Bool) (maxPages : Nat) (pool : Pool) :
    Pool × List Effect :=
  if pool.length < maxPages then (pool, [])
  else
    let sortedPages := sortOldest pool
    let pagesToRemove := sortedPages.take (pool.length - maxPages + 1)
    let effs := (pagesToRemove.filter (fun e => !closed e.2.pageId)).map
      (fun e => Effect.closePage e.2.pageId)
    (pagesToRemove.foldl (fun p e => deleteKey p e.1) pool, effs)

/-- Result of `getPage(url)`: either a page handle, or the navigation-timeout
rejection thrown by `page.goto` (carrying the id of the page that had just
been created and navigated). -/
inductive GetPageResult where
  | ok (pageId : Nat)
  | navTimeout (pageId : Nat)
  deriving DecidableEq, Repr

/-- Page id named by a `GetPageResult`. -/
def GetPageResult.pageOf : GetPageResult → Nat
  | .ok p => p
  | .navTimeout p => p

structure GetPageOut where
  result : GetPageResult
  pool : Pool
  effects : List Effect
  deriving DecidableEq, Repr

/-- The miss path of `getPage` (src/browser-manager.ts:246-266): evict if
needed, create a page (`browser.newPage()` yields the fresh id `freshId`),
navigate it to the **raw** `url` argument, and — only when navigation
succeeds (`navOk`) — register it in the pool under the normalized key with
`createdAt = now`.  When `page.goto` rejects (timeout), the error propagates
before `this.pages.set` runs. -/
def createAndNavigate (closed : Nat → Bool) (navOk : Bool) (freshId now maxPages : Nat)
    (pool : Pool) (url key : String) : GetPageOut :=
  let cleaned := cleanupOldPagesIfNeeded closed maxPages pool
  let effs := cleaned.2 ++ [Effect.newPage freshId, Effect.goto freshId url]
  if navOk then
    ⟨.ok freshId, insertEntry cleaned.1 key ⟨freshId, key, now⟩, effs⟩
  else
    ⟨.navTimeout freshId, cleaned.1, effs⟩

/-- Source `BrowserManager.getPage(url)` with a URL supplied
(src/browser-manager.ts:230-267), after the browser is initialized: look the
normalized URL up in the pool; a live hit is returned as-is; a dead hit is
deleted and the miss path is taken; a miss takes the miss path directly. -/
def getPage (closed : Nat → Bool) (navOk : Bool) (freshId now maxPages : Nat)
    (pool : Pool) (url : String) : GetPageOut :=
  let normalizedUrl := normalizeUrl url
  match lookupPool pool normalizedUrl with
  | some info =>
    if !closed info.pageId then
      ⟨.ok info.pageId, pool, []⟩
    else
      createAndNavigate closed navOk freshId now maxPages
        (deleteKey pool normalizedUrl) url normalizedUrl
  | none =>
    createAndNavigate closed navOk freshId now maxPages pool url normalizedUrl

/-- The fixed idle age of `cleanupOldPages` (src/browser-manager.ts:414):
`10 * 60 * 1000` ms. -/
def sweepMaxAge : Nat := 10 * 60 * 1000

/-- Source `BrowserManager.cleanupOldPages` (src/browser-manager.ts:412-430), the
periodic idle sweep: close (when still live) and delete every entry whose
age exceeds `sweepMaxAge`. -/
def cleanupOldPages (closed : Nat → Bool) (now : Nat) (pool : Pool) :
    Pool × List Effect :=
  let stale := pool.filter (fun e => sweepMaxAge < now - e.2.createdAt)
  (pool.filter (fun e => !(sweepMaxAge < now - e.2.createdAt)),
   (stale.filter (fun e => !closed e.2.pageId)).map (fun e => Effect.closePage e.2.pageId))

/-! ## The initialization guard

`initialize()` (src/browser-manager.ts:75-122) runs on a single-threaded
event loop: its body from the `this.browser` check down to the assignment of
`this.initializing` and the `return` contains no `await`, so it executes
atomically with respect to the other callers.  We model one `initialize()`
call as this synchronous prefix: it either resolves immediately (a browser
already exists), joins the shared in-flight promise, or installs a new
in-flight promise whose body will perform the single launch attempt (the
body's own re-check of `this.browser` cannot fire while it is the only
in-flight body, since only that body ever assigns `this.browser`). -/

/-- Outcome of one launch attempt. -/
inductive Outcome where
  | success
  | failure (msg : String)
  deriving DecidableEq, Repr

/-- What one `initialize()` call returns: `immediate` when `this.browser` was
already set, `shared p` when the caller awaits the in-flight promise `p`
(whether it installed `p` itself or joined it). -/
inductive InitResult where
  | immediate
  | shared (promiseId : Nat)
  deriving DecidableEq, Repr

/-- Lifecycle state visible to `initialize()` prefixes. -/
structure InitState where
  browserLive : Bool
  initializing : Option Nat
  launchCount : Nat
  deriving DecidableEq, Repr

/-- The synchronous prefix of `initialize()`: the `this.browser` fast path,
the `this.initializing` join, or installing the shared promise `pid` (in
which case exactly one launch attempt is charged to the in-flight body). -/
def initCallSync (st : InitState) (pid : Nat) : InitState × InitResult :=
  if st.browserLive then (st, .immediate)
  else
    match st.initializing with
    | some p => (st, .shared p)
    | none => ({ st with initializing := some pid, launchCount := st.launchCount + 1 },
               .shared pid)

/-- Run the synchronous prefixes of a batch of concurrent `initialize()`
calls in their event-loop order. -/
def runInitCalls (st : InitState) : List Nat → InitState × List InitResult
  | [] => (st, [])
  | pid :: pids =>
    let (st', r) := initCallSync st pid
    let (st'', rs) := runInitCalls st' pids
    (st'', r :: rs)

/-- The outcome a caller observes once the in-flight attempt (if any)
completes with outcome `o`: joiners of the shared promise observe `o`, and a
caller that found a live browser observes success. -/
def observedOutcome (o : Outcome) : InitResult → Outcome
  | .immediate => .success
  | .shared _ => o

/-! ## `close()` and the graceful-shutdown latch -/

/-- The in-flight initialization awaited by `close()`: its eventual outcome
and, on success, the browser id it assigns and the timer id its
`startPageCleanup` call installs. -/
structure InFlightInit where
  outcome : Outcome
  browserId : Nat
  timerId : Nat
  deriving DecidableEq, Repr

/-- The manager state that `close()` reads and writes. -/
structure MgrState where
  browser : Option Nat
  pages : Pool
  cleanupTimer : Option Nat
  initializing : Option InFlightInit
  deriving DecidableEq, Repr

/-- Source `BrowserManager.stopPageCleanup` (src/browser-manager.ts:376-381):
`clearInterval` when a timer is set. -/
def stopPageCleanup (st : MgrState) : MgrState × List Effect :=
  match st.cleanupTimer with
  | some t => ({ st with cleanupTimer := none }, [Effect.stopTimer t])
  | none => (st, [])

/-- Effect on the manager state of awaiting the in-flight `initialize()`
body: on success it assigns `this.browser`, runs `startPageCleanup` (which
installs a timer only when none is set, src/browser-manager.ts:363-371), and
clears the lock in its `finally`; on failure it only clears the lock.
`close()` swallows the failure. -/
def awaitInFlight (op : InFlightInit) (st : MgrState) : MgrState :=
  match op.outcome with
  | .success =>
    { st with browser := some op.browserId,
              cleanupTimer := if st.cleanupTimer.isSome then st.cleanupTimer
                              else some op.timerId,
              initializing := none }
  | .failure _ => { st with initializing := none }

/-- Source `BrowserManager.closeAllPages` (src/browser-manager.ts:343-358): close
every still-live pooled page (close errors swallowed), then clear the map. -/
def closeAllPages (closed : Nat → Bool) (st : MgrState) : MgrState × List Effect :=
  ({ st with pages := [] },
   (st.pages.filter (fun e => !closed e.2.pageId)).map (fun e => Effect.closePage e.2.pageId))

/-- Source `BrowserManager.close` (src/browser-manager.ts:435-463), in source order:
stop the cleanup timer, await a pending initialization (swallowing its
error), close all pages, close the browser if one exists (errors swallowed)
and null it, and finally clear the initialization lock. -/
def close (closed : Nat → Bool) (st : MgrState) : MgrState × List Effect :=
  let s1 := stopPageCleanup st
  let s2 := match s1.1.initializing with
    | some op => awaitInFlight op s1.1
    | none => s1.1
  let s3 := closeAllPages closed s2
  let s4 := match s3.1.browser with
    | some b => ({ s3.1 with browser := none }, [Effect.closeBrowser b])
    | none => (s3.1, ([] : List Effect))
  ({ s4.1 with initializing := none }, s1.2 ++ s3.2 ++ s4.2)

/-- Model of the once-only latch of `DebuggerMCPServer.gracefulShutdown` (src/index.ts):
`if (this.isShuttingDown) return; this.isShuttingDown = true;` before any
teardown.  The returned `Bool` records whether the teardown body ran. -/
def gracefulShutdown (isShuttingDown : Bool) : Bool × Bool :=
  if isShuttingDown then (isShuttingDown, false) else (true, true)

/-! ## Configuration and the singleton accessor -/

/-- Source `BrowserConfig` (src/types.ts:6-10): the only configuration fields the
manager accepts. -/
structure BrowserConfig where
  headless : Option Bool := none
  args : Option (List String) := none
  timeout : Option Nat := none
  deriving DecidableEq, Repr

/-- Effective configuration held in `this.config` after construction. -/
structure EffectiveConfig where
  headless : Bool
  args : List String
  timeout : Nat
  deriving DecidableEq, Repr

/-- Source `defaultArgs` of the constructor (src/browser-manager.ts:24-51). -/
def defaultArgs : List String :=
  ["--no-sandbox", "--disable-setuid-sandbox", "--disable-dev-shm-usage",
   "--disable-gpu", "--disable-software-rasterizer", "--disable-extensions",
   "--disable-plugins", "--disable-background-networking",
   "--disable-background-timer-throttling", "--disable-renderer-backgrounding",
   "--disable-backgrounding-occluded-windows", "--disable-breakpad",
   "--disable-component-update", "--disable-default-apps",
   "--disable-domain-reliability", "--disable-features=TranslateUI",
   "--disable-ipc-flooding-protection", "--disable-sync",
   "--metrics-recording-only", "--no-first-run", "--no-default-browser-check",
   "--mute-audio", "--hide-scrollbars", "--disable-notifications",
   "--disable-web-security", "--disable-features=VizDisplayCompositor"]

/-- The immutable per-instance values fixed by the constructor
(src/browser-manager.ts:9-59): the effective configuration, and the
hard-coded `maxPages = 5` and `pageCleanupInterval = 5 * 60 * 1000`. -/
structure ManagerInstance where
  config : EffectiveConfig
  maxPages : Nat
  pageCleanupInterval : Nat
  deriving DecidableEq, Repr

/-- The `BrowserManager` constructor (src/browser-manager.ts:22-59):
`this.config = { headless: true, args: config.args || defaultArgs,
timeout: 30000, ...config }` — supplied fields override the defaults —
while `maxPages` and `pageCleanupInterval` are `readonly` class constants. -/
def mkBrowserManager (config : BrowserConfig) : ManagerInstance :=
  { config := { headless := config.headless.getD true
                args := config.args.getD defaultArgs
                timeout := config.timeout.getD 30000 }
    maxPages := 5
    pageCleanupInterval := 5 * 60 * 1000 }

/-- Source `BrowserManager.getInstance` (src/browser-manager.ts:64-69): construct on
first call (absent `config` defaults to `{}`), return the stored instance —
ignoring `config` — afterwards. -/
def getInstance (stored : Option ManagerInstance) (config : Option BrowserConfig) :
    ManagerInstance :=
  match stored with
  | some inst => inst
  | none => mkBrowserManager (config.getD {})

/-! ## Pool lemmas -/

theorem lookupPool_none_iff_find? {pool : Pool} {key : String} :
    lookupPool pool key = none ↔ pool.find? (fun e => e.1 == key) = none := by
  unfold lookupPool
  rcases h : pool.find? (fun e => e.1 == key) with _ | e <;> simp [h]

theorem lookupPool_eq_none {pool : Pool} {key : String} :
    lookupPool pool key = none ↔ ∀ e ∈ pool, e.1 ≠ key := by
  rw [lookupPool_none_iff_find?, List.find?_eq_none]
  simp

theorem lookupPool_deleteKey_self (pool : Pool) (key : String) :
    lookupPool (deleteKey pool key) key = none := by
  rw [lookupPool_eq_none]
  intro e he
  have := (List.mem_filter.mp he).2
  simpa using this

theorem deleteKey_keys_nodup {pool : Pool} (hnd : (pool.map Prod.fst).Nodup) (key : String) :
    ((deleteKey pool key).map Prod.fst).Nodup :=
  List.Nodup.sublist (List.Sublist.map _ (List.filter_sublist pool)) hnd

theorem lookupPool_sublist_none {pool pool' : Pool} {key : String}
    (hsub : pool'.Sublist pool) (h : lookupPool pool key = none) :
    lookupPool pool' key = none := by
  rw [lookupPool_eq_none] at h ⊢
  exact fun e he => h e (hsub.subset he)

theorem find?_append_of_none {α : Type} {p : α → Bool} {l₁ l₂ : List α}
    (h : l₁.find? p = none) : (l₁ ++ l₂).find? p = l₂.find? p := by
  rw [List.find?_append, h, Option.none_or]

theorem lookupPool_insertEntry_self {pool : Pool} {key : String} (info : PageInfo)
    (h : lookupPool pool key = none) :
    lookupPool (insertEntry pool key info) key = some info := by
  have hf : pool.find? (fun e => e.1 == key) = none := lookupPool_none_iff_find?.mp h
  unfold lookupPool insertEntry
  rw [find?_append_of_none hf, List.find?_cons_of_pos _ (by simp)]

theorem length_insertEntry (pool : Pool) (key : String) (info : PageInfo) :
    (insertEntry pool key info).length = pool.length + 1 := by
  simp [insertEntry]

/-! ## Stable-sort lemmas -/

theorem insertOldest_perm (x : String × PageInfo) (l : Pool) :
    (insertOldest x l).Perm (x :: l) := by
  induction l with
  | nil => rfl
  | cons y ys ih =>
    unfold insertOldest
    by_cases h : oldestFirst x y = true
    · rw [if_pos h]
    · rw [if_neg h]
      exact (ih.cons y).trans (List.Perm.swap x y ys)

theorem sortOldest_perm (l : Pool) : (sortOldest l).Perm l := by
  induction l with
  | nil => rfl
  | cons x xs ih =>
    exact (insertOldest_perm x (sortOldest xs)).trans (ih.cons x)

theorem mem_insertOldest {a x : String × PageInfo} {l : Pool} :
    a ∈ insertOldest x l ↔ a = x ∨ a ∈ l := by
  rw [(insertOldest_perm x l).mem_iff, List.mem_cons]

theorem insertOldest_pairwise {x : String × PageInfo} {l : Pool}
    (h : List.Pairwise (fun a b => a.2.createdAt ≤ b.2.createdAt) l) :
    List.Pairwise (fun a b => a.2.createdAt ≤ b.2.createdAt) (insertOldest x l) := by
  induction l with
  | nil => simp [insertOldest]
  | cons y ys ih =>
    rcases h with _ | ⟨hy, hys⟩
    unfold insertOldest
    by_cases hle : oldestFirst x y = true
    · rw [if_pos hle]
      have hxy : x.2.createdAt ≤ y.2.createdAt := by simpa [oldestFirst] using hle
      refine List.Pairwise.cons ?_ (List.Pairwise.cons hy hys)
      intro b hb
      rcases List.mem_cons.mp hb with rfl | hb
      · exact hxy
      · exact Nat.le_trans hxy (hy b hb)
    · rw [if_neg hle]
      have hyx : y.2.createdAt ≤ x.2.createdAt :=
        Nat.le_of_lt (Nat.lt_of_not_le (by simpa [oldestFirst] using hle))
      refine List.Pairwise.cons ?_ (ih hys)
      intro b hb
      rcases mem_insertOldest.mp hb with rfl | hb
      · exact hyx
      · exact hy b hb

theorem sortOldest_pairwise (l : Pool) :
    List.Pairwise (fun a b => a.2.createdAt ≤ b.2.createdAt) (sortOldest l) := by
  induction l with
  | nil => exact List.Pairwise.nil
  | cons x xs ih => exact insertOldest_pairwise ih

theorem filter_insertOldest (t : Nat) (x : String × PageInfo) (l : Pool) :
    (insertOldest x l).filter (fun e => e.2.createdAt == t) =
      if x.2.createdAt == t then x :: l.filter (fun e => e.2.createdAt == t)
      else l.filter (fun e => e.2.createdAt == t) := by
  induction l with
  | nil =>
    by_cases hx : (x.2.createdAt == t) = true <;>
      simp [insertOldest, List.filter_cons, hx]
  | cons y ys ih =>
    unfold insertOldest
    by_cases hle : oldestFirst x y = true
    · rw [if_pos hle]
      by_cases hx : (x.2.createdAt == t) = true <;> simp [List.filter_cons, hx]
    · rw [if_neg hle]
      have hyx : y.2.createdAt < x.2.createdAt :=
        Nat.lt_of_not_le (by simpa [oldestFirst] using hle)
      by_cases hx : (x.2.createdAt == t) = true
      · have hyt : (y.2.createdAt == t) = false := by
          refine beq_eq_false_iff_ne.mpr ?_
          have hxt : x.2.createdAt = t := by simpa using hx
          omega
        simp [List.filter_cons, hx, hyt, ih]
      · simp [List.filter_cons, hx, ih]

/-- Stability of `sortOldest`: for every timestamp, the subsequence of
entries carrying that `createdAt` is exactly the one of the input list, in
the same order — the characterization of the unique stable ascending sort,
matching ES2019's stable `Array.prototype.sort`. -/
theorem sortOldest_stable (t : Nat) (l : Pool) :
    (sortOldest l).filter (fun e => e.2.createdAt == t) =
      l.filter (fun e => e.2.createdAt == t) := by
  induction l with
  | nil => rfl
  | cons x xs ih =>
    show (insertOldest x (sortOldest xs)).filter _ = _
    rw [filter_insertOldest, ih]
    by_cases hx : (x.2.createdAt == t) = true <;> simp [List.filter_cons, hx]

/-! ## `cleanupOldPagesIfNeeded` lemmas -/

theorem foldl_deleteKey : ∀ (L p : Pool),
    L.foldl (fun q e => deleteKey q e.1) p = p.filter (fun x => L.all (fun e => x.1 != e.1))
  | [], p => by simp
  | e :: L, p => by
    rw [List.foldl_cons, foldl_deleteKey L, deleteKey, List.filter_filter]
    refine List.filter_congr fun x _ => ?_
    simp [List.all_cons, Bool.and_comm]

theorem cleanup_of_lt {closed : Nat → Bool} {maxPages : Nat} {pool : Pool}
    (h : pool.length < maxPages) :
    cleanupOldPagesIfNeeded closed maxPages pool = (pool, []) := by
  simp [cleanupOldPagesIfNeeded, h]

theorem cleanup_of_ge {closed : Nat → Bool} {maxPages : Nat} {pool : Pool}
    (h : maxPages ≤ pool.length) :
    cleanupOldPagesIfNeeded closed maxPages pool =
      (pool.filter (fun x =>
        ((sortOldest pool).take (pool.length - maxPages + 1)).all (fun e => x.1 != e.1)),
       (((sortOldest pool).take (pool.length - maxPages + 1)).filter
         (fun e => !closed e.2.pageId)).map (fun e => Effect.closePage e.2.pageId)) := by
  simp only [cleanupOldPagesIfNeeded, if_neg (Nat.not_lt.mpr h)]
  rw [foldl_deleteKey]

theorem cleanup_fst_sublist (closed : Nat → Bool) (maxPages : Nat) (pool : Pool) :
    (cleanupOldPagesIfNeeded closed maxPages pool).1.Sublist pool := by
  by_cases h : pool.length < maxPages
  · rw [cleanup_of_lt h]
  · rw [cleanup_of_ge (Nat.le_of_not_lt h)]
    exact List.filter_sublist pool

theorem cleanup_effects_mem {closed : Nat → Bool} {maxPages : Nat} {pool : Pool}
    {ef : Effect} (h : ef ∈ (cleanupOldPagesIfNeeded closed maxPages pool).2) :
    ∃ x ∈ pool, ef = Effect.closePage x.2.pageId := by
  by_cases hlt : pool.length < maxPages
  · rw [cleanup_of_lt hlt] at h
    exact absurd h (by simp)
  · rw [cleanup_of_ge (Nat.le_of_not_lt hlt)] at h
    rcases List.mem_map.mp h with ⟨x, hx, rfl⟩
    have hx' : x ∈ (sortOldest pool).take (pool.length - maxPages + 1) :=
      (List.mem_filter.mp hx).1
    have : x ∈ pool :=
      (sortOldest_perm pool).mem_iff.mp ((List.take_sublist _ _).subset hx')
    exact ⟨x, this, rfl⟩

/-- The central eviction lemma: with unique keys and `1 ≤ maxPages ≤ |pool|`,
the surviving pool is a permutation of what remains after dropping the
`|pool| - maxPages + 1` stably-oldest entries. -/
theorem cleanup_fst_perm_drop {closed : Nat → Bool} {maxPages : Nat} {pool : Pool}
    (hnd : (pool.map Prod.fst).Nodup) (hge : maxPages ≤ pool.length) :
    (cleanupOldPagesIfNeeded closed maxPages pool).1.Perm
      ((sortOldest pool).drop (pool.length - maxPages + 1)) := by
  set k := pool.length - maxPages + 1 with hk
  set T := (sortOldest pool).take k with hT
  set D := (sortOldest pool).drop k with hD
  have hTD : T ++ D = sortOldest pool := List.take_append_drop k (sortOldest pool)
  have hperm : (sortOldest pool).Perm pool := sortOldest_perm pool
  have hndS : ((sortOldest pool).map Prod.fst).Nodup :=
    ((hperm.map Prod.fst).nodup_iff).mpr hnd
  have hndTD : ((T.map Prod.fst) ++ (D.map Prod.fst)).Nodup := by
    rw [← List.map_append, hTD]; exact hndS
  have hdisj : (T.map Prod.fst).Disjoint (D.map Prod.fst) :=
    (List.nodup_append.mp hndTD).2.2
  rw [cleanup_of_ge hge]
  have hfilter : (sortOldest pool).filter (fun x => T.all (fun e => x.1 != e.1)) = D := by
    rw [← hTD, List.filter_append]
    have h1 : T.filter (fun x => T.all (fun e => x.1 != e.1)) = [] := by
      rw [List.filter_eq_nil_iff]
      intro a ha hall
      have := List.all_eq_true.mp hall a ha
      simp at this
    have h2 : D.filter (fun x => T.all (fun e => x.1 != e.1)) = D := by
      rw [List.filter_eq_self]
      intro a ha
      refine List.all_eq_true.mpr fun e he => ?_
      refine bne_iff_ne.mpr fun hcontra => ?_
      exact hdisj (List.mem_map_of_mem Prod.fst he)
        (hcontra ▸ List.mem_map_of_mem Prod.fst ha)
    rw [h1, h2, List.nil_append]
  have hp : (pool.filter (fun x => T.all (fun e => x.1 != e.1))).Perm
      ((sortOldest pool).filter (fun x => T.all (fun e => x.1 != e.1))) :=
    List.Perm.filter _ hperm.symm
  rw [hfilter] at hp
  exact hp

theorem cleanup_fst_length {closed : Nat → Bool} {maxPages : Nat} {pool : Pool}
    (hnd : (pool.map Prod.fst).Nodup) (hmax : 1 ≤ maxPages) (hge : maxPages ≤ pool.length) :
    (cleanupOldPagesIfNeeded closed maxPages pool).1.length + 1 = maxPages := by
  have h := (@cleanup_fst_perm_drop closed maxPages pool hnd hge).length_eq
  rw [List.length_drop, (sortOldest_perm pool).length_eq] at h
  omega

/-! ## Initialization-guard lemmas -/

theorem runInitCalls_inflight (p : Nat) (st : InitState) (h1 : st.browserLive = false)
    (h2 : st.initializing = some p) :
    ∀ pids : List Nat,
      runInitCalls st pids = (st, pids.map (fun _ => InitResult.shared p))
  | [] => by simp [runInitCalls]
  | pid :: pids => by
    simp [runInitCalls, initCallSync, h1, h2, runInitCalls_inflight p st h1 h2 pids]

theorem runInitCalls_cons_fresh (pid : Nat) (pids : List Nat) :
    runInitCalls ⟨false, none, 0⟩ (pid :: pids) =
      (⟨false, some pid, 1⟩,
       InitResult.shared pid :: pids.map (fun _ => InitResult.shared pid)) := by
  have hrun := runInitCalls_inflight pid ⟨false, some pid, 1⟩ rfl rfl pids
  simp [runInitCalls, initCallSync, hrun]

/-! ## Claim theorems -/

/-- Claim C1: for any number of concurrent `initialize()` calls issued while no
browser exists (initial state: no browser, no in-flight initialization),
exactly one underlying launch attempt occurs; every call — including the
ones arriving while the initialization is in flight — is handed the same
shared in-flight promise (the first caller's, `shared pid`), so all of them
resolve with the outcome `o` of that single attempt. -/
theorem initialize_at_most_one_launch (pid : Nat) (pids : List Nat) (o : Outcome) :
    (runInitCalls ⟨false, none, 0⟩ (pid :: pids)).1.launchCount = 1 ∧
    ∀ r ∈ (runInitCalls ⟨false, none, 0⟩ (pid :: pids)).2,
      r = InitResult.shared pid ∧ observedOutcome o r = o := by
  rw [runInitCalls_cons_fresh]
  refine ⟨rfl, ?_⟩
  intro r hr
  have hr' : r = InitResult.shared pid := by
    rcases List.mem_cons.mp hr with rfl | hmem
    · rfl
    · rcases List.mem_map.mp hmem with ⟨_, _, rfl⟩; rfl
  exact ⟨hr', by rw [hr']; rfl⟩

/-- Claim C7: after a completed `close()` (no initialization in flight), a
second `close()` performs no teardown effect (empty effect list) and leaves
the state unchanged; and the facade's `gracefulShutdown` latch makes every
invocation after the first return without running the teardown body. -/
theorem close_idempotent (closed closed' : Nat → Bool) (st : MgrState)
    (h : st.initializing = none) :
    close closed' (close closed st).1 = ((close closed st).1, []) ∧
    gracefulShutdown true = (true, false) ∧ (gracefulShutdown false).1 = true := by
  have hterm : (close closed st).1 = ⟨none, [], none, none⟩ := by
    rcases st with ⟨b, pg, tm, ini⟩
    simp only at h
    subst h
    rcases tm with _ | t <;> rcases b with _ | bb <;>
      simp [close, stopPageCleanup, closeAllPages]
  rw [hterm]
  exact ⟨rfl, rfl, rfl⟩

theorem close_idempotent_witness :
    close (fun _ => false)
        (close (fun _ => true) ⟨some 3, [("a", ⟨1, "a", 0⟩)], some 7, none⟩).1 =
      ((close (fun _ => true) ⟨some 3, [("a", ⟨1, "a", 0⟩)], some 7, none⟩).1, []) ∧
    gracefulShutdown true = (true, false) ∧ (gracefulShutdown false).1 = true :=
  close_idempotent (fun _ => true) (fun _ => false) _ rfl

/-- Claim C8 (code bug): `close()` runs `stopPageCleanup` before awaiting the
in-flight initialization; when that initialization succeeds it starts the
sweep timer, which `close()` then never clears.  Concretely: closing while
an initialization is in flight that succeeds (assigning browser 5 and timer
9) ends with `cleanupTimer = some 9` still set after `close()` returns — the
idle sweep keeps firing — although the browser itself is gone.  (For
comparison, when the awaited launch fails, `close()` does reach the fully
terminal state, with the failure swallowed.) -/
theorem close_during_init_timer_survives :
    (close (fun _ => false) ⟨none, [], none, some ⟨Outcome.success, 5, 9⟩⟩).1 =
      ⟨none, [], some 9, none⟩ ∧
    (close (fun _ => false)
        ⟨none, [], none, some ⟨Outcome.failure "launch failed", 5, 9⟩⟩).1 =
      ⟨none, [], none, none⟩ :=
  ⟨rfl, rfl⟩

/-- Claim C9 (counterexample): the claim says the maximum pool size, the
idle-sweep interval and the idle-eviction age are configuration inputs whose
configured values are the ones enforced.  `BrowserConfig` has no such
fields, and two maximally different configurations yield the same hard-coded
`maxPages = 5`, `pageCleanupInterval = 300000` ms and `sweepMaxAge = 600000`
ms, so none of the three is a configuration input. -/
theorem browser_config_has_no_pool_knobs :
    (mkBrowserManager ⟨some false, some ["--foo"], some 1⟩).maxPages = 5 ∧
    (mkBrowserManager ⟨some true, none, some 999999999⟩).maxPages = 5 ∧
    (mkBrowserManager ⟨some false, some ["--foo"], some 1⟩).pageCleanupInterval = 300000 ∧
    (mkBrowserManager ⟨some true, none, some 999999999⟩).pageCleanupInterval = 300000 ∧
    sweepMaxAge = 600000 :=
  ⟨rfl, rfl, rfl, rfl, rfl⟩

/-- Claim C9 (amended): the headless flag, launch arguments and navigation
timeout are configuration inputs read once at construction (defaults
`true` / `defaultArgs` / `30000`); the pool bound, sweep interval and idle
age are hard-coded constants (`5`, five minutes, ten minutes); and
`getInstance` ignores any configuration passed after the instance exists. -/
theorem config_fixed_at_first_construction (cfg : BrowserConfig)
    (cfg2 : Option BrowserConfig) :
    (mkBrowserManager cfg).config.headless = cfg.headless.getD true ∧
    (mkBrowserManager cfg).config.args = cfg.args.getD defaultArgs ∧
    (mkBrowserManager cfg).config.timeout = cfg.timeout.getD 30000 ∧
    (mkBrowserManager cfg).maxPages = 5 ∧
    (mkBrowserManager cfg).pageCleanupInterval = 5 * 60 * 1000 ∧
    sweepMaxAge = 10 * 60 * 1000 ∧
    getInstance (some (mkBrowserManager cfg)) cfg2 = mkBrowserManager cfg :=
  ⟨rfl, rfl, rfl, rfl, rfl, rfl, rfl⟩

theorem createAndNavigate_length {closed : Nat → Bool} {freshId now maxPages : Nat}
    {pool : Pool} {url key : String}
    (hnd : (pool.map Prod.fst).Nodup) (hmax : 1 ≤ maxPages) :
    (createAndNavigate closed true freshId now maxPages pool url key).pool.length ≤
      maxPages := by
  have hpl : (createAndNavigate closed true freshId now maxPages pool url key).pool =
      insertEntry (cleanupOldPagesIfNeeded closed maxPages pool).1 key
        ⟨freshId, key, now⟩ := rfl
  rw [hpl, length_insertEntry]
  by_cases h : pool.length < maxPages
  · rw [cleanup_of_lt h]
    show pool.length + 1 ≤ maxPages
    omega
  · have := @cleanup_fst_length closed maxPages pool hnd hmax (Nat.le_of_not_lt h)
    omega

theorem createAndNavigate_result (closed : Nat → Bool) (navOk : Bool)
    (freshId now maxPages : Nat) (pool : Pool) (url key : String) :
    (createAndNavigate closed navOk freshId now maxPages pool url key).result.pageOf =
      freshId := by
  unfold createAndNavigate
  cases navOk <;> rfl

/-- Claim C2: whenever `getPage` registers a newly created page (a lookup miss,
or a hit on a dead handle — the `hmiss` hypothesis rules out only the
live-hit path, on which nothing is inserted), the resulting pool has at most
`maxPages` entries; and when the pool already held `maxPages` or more
entries, the eviction pass leaves exactly `maxPages - 1` of them — room for
exactly one new entry. -/
theorem getPage_insert_bounded (closed : Nat → Bool) (freshId now maxPages : Nat)
    (pool : Pool) (url : String)
    (hnd : (pool.map Prod.fst).Nodup) (hmax : 1 ≤ maxPages)
    (hmiss : ∀ info, lookupPool pool (normalizeUrl url) = some info →
      closed info.pageId = true) :
    (getPage closed true freshId now maxPages pool url).pool.length ≤ maxPages ∧
    (maxPages ≤ pool.length →
      (cleanupOldPagesIfNeeded closed maxPages pool).1.length + 1 = maxPages) := by
  constructor
  · rcases hlk : lookupPool pool (normalizeUrl url) with _ | info
    · have hunf : getPage closed true freshId now maxPages pool url =
          createAndNavigate closed true freshId now maxPages pool url
            (normalizeUrl url) := by
        simp [getPage, hlk]
      rw [hunf]
      exact createAndNavigate_length hnd hmax
    · have hdead := hmiss info hlk
      have hunf : getPage closed true freshId now maxPages pool url =
          createAndNavigate closed true freshId now maxPages
            (deleteKey pool (normalizeUrl url)) url (normalizeUrl url) := by
        simp [getPage, hlk, hdead]
      rw [hunf]
      exact createAndNavigate_length (deleteKey_keys_nodup hnd _) hmax
  · intro hge
    exact cleanup_fst_length hnd hmax hge

/-- Example pool of five distinct URLs for the C2 witness. -/
def poolC2 : Pool :=
  [("u1", ⟨1, "u1", 10⟩), ("u2", ⟨2, "u2", 20⟩), ("u3", ⟨3, "u3", 30⟩),
   ("u4", ⟨4, "u4", 40⟩), ("u5", ⟨5, "u5", 50⟩)]

theorem getPage_insert_bounded_witness :
    (getPage (fun _ => false) true 9 99 5 poolC2 "https://x.com").pool.length ≤ 5 ∧
    (cleanupOldPagesIfNeeded (fun _ => false) 5 poolC2).1.length + 1 = 5 :=
  ⟨(getPage_insert_bounded (fun _ => false) 9 99 5 poolC2 "https://x.com"
      (by decide) (by decide) (fun info h => nomatch h)).1,
   (getPage_insert_bounded (fun _ => false) 9 99 5 poolC2 "https://x.com"
      (by decide) (by decide) (fun info h => nomatch h)).2 (by decide)⟩

/-- Claim C3: when an insertion triggers eviction (`maxPages ≤ |pool|`), the
ascending-`createdAt` sort is a permutation of the pool and is *stable*
(entries of every fixed `createdAt` stay in their original Map-insertion
order, as with ES2019 `Array.prototype.sort`); the survivors are a
permutation of what remains after dropping the `|pool| - maxPages + 1`
stably-oldest entries, so exactly the oldest entries are evicted — ties
broken by insertion order, no other key — `maxPages - 1` entries survive
(room for exactly one new one), every evicted entry is no younger than
every kept one, and precisely the still-live evicted handles are closed. -/
theorem cleanup_evicts_oldest (closed : Nat → Bool) (maxPages : Nat) (pool : Pool)
    (hnd : (pool.map Prod.fst).Nodup) (hmax : 1 ≤ maxPages)
    (hge : maxPages ≤ pool.length) :
    (sortOldest pool).Perm pool ∧
    List.Pairwise (fun a b => a.2.createdAt ≤ b.2.createdAt) (sortOldest pool) ∧
    (cleanupOldPagesIfNeeded closed maxPages pool).1.Perm
      ((sortOldest pool).drop (pool.length - maxPages + 1)) ∧
    (cleanupOldPagesIfNeeded closed maxPages pool).1.length + 1 = maxPages ∧
    (∀ kept ∈ (cleanupOldPagesIfNeeded closed maxPages pool).1,
      ∀ ev ∈ (sortOldest pool).take (pool.length - maxPages + 1),
        ev.2.createdAt ≤ kept.2.createdAt) ∧
    (cleanupOldPagesIfNeeded closed maxPages pool).2 =
      (((sortOldest pool).take (pool.length - maxPages + 1)).filter
        (fun e => !closed e.2.pageId)).map (fun e => Effect.closePage e.2.pageId) ∧
    (∀ t, (sortOldest pool).filter (fun e => e.2.createdAt == t) =
      pool.filter (fun e => e.2.createdAt == t)) := by
  refine ⟨sortOldest_perm pool, sortOldest_pairwise pool,
    cleanup_fst_perm_drop hnd hge, cleanup_fst_length hnd hmax hge, ?_, ?_,
    fun t => sortOldest_stable t pool⟩
  · intro kept hkept ev hev
    have hkd : kept ∈ (sortOldest pool).drop (pool.length - maxPages + 1) :=
      (@cleanup_fst_perm_drop closed maxPages pool hnd hge).mem_iff.mp hkept
    have hpw := sortOldest_pairwise pool
    rw [← List.take_append_drop (pool.length - maxPages + 1) (sortOldest pool)] at hpw
    exact (List.pairwise_append.mp hpw).2.2 ev hev kept hkd
  · rw [cleanup_of_ge hge]

/-- Example pool of three entries for the C3 witness: the two oldest share
`createdAt = 10` (a tie, broken by Map-insertion order: `b` before `a`), and
the handle with `pageId = 1` is already closed so only the live evictee is
close-effected. -/
def poolC3 : Pool :=
  [("b", ⟨2, "b", 10⟩), ("a", ⟨1, "a", 10⟩), ("c", ⟨3, "c", 30⟩)]

theorem cleanup_evicts_oldest_witness :
    (sortOldest poolC3).Perm poolC3 ∧
    (cleanupOldPagesIfNeeded (fun p => p == 1) 2 poolC3).1.Perm
      ((sortOldest poolC3).drop (poolC3.length - 2 + 1)) ∧
    (cleanupOldPagesIfNeeded (fun p => p == 1) 2 poolC3).1.length + 1 = 2 ∧
    (cleanupOldPagesIfNeeded (fun p => p == 1) 2 poolC3).2 =
      (((sortOldest poolC3).take (poolC3.length - 2 + 1)).filter
        (fun e => !(fun p => p == 1) e.2.pageId)).map
        (fun e => Effect.closePage e.2.pageId) :=
  ⟨(cleanup_evicts_oldest (fun p => p == 1) 2 poolC3 (by decide) (by decide)
      (by decide)).1,
   (cleanup_evicts_oldest (fun p => p == 1) 2 poolC3 (by decide) (by decide)
      (by decide)).2.2.1,
   (cleanup_evicts_oldest (fun p => p == 1) 2 poolC3 (by decide) (by decide)
      (by decide)).2.2.2.1,
   (cleanup_evicts_oldest (fun p => p == 1) 2 poolC3 (by decide) (by decide)
      (by decide)).2.2.2.2.2.1⟩

/-- Claim C4: when the pooled entry for the URL holds a dead handle at lookup
time, `getPage` never returns that handle (the returned page id is the fresh
one) and behaves exactly as it does on the pool with the stale entry already
deleted — it proceeds as if no entry existed for that URL. -/
theorem getPage_dead_self_healing (closed : Nat → Bool) (navOk : Bool)
    (freshId now maxPages : Nat) (pool : Pool) (url : String) (info : PageInfo)
    (hlk : lookupPool pool (normalizeUrl url) = some info)
    (hdead : closed info.pageId = true)
    (hfresh : freshId ≠ info.pageId) :
    (getPage closed navOk freshId now maxPages pool url).result.pageOf ≠ info.pageId ∧
    getPage closed navOk freshId now maxPages pool url =
      getPage closed navOk freshId now maxPages
        (deleteKey pool (normalizeUrl url)) url := by
  have hlhs : getPage closed navOk freshId now maxPages pool url =
      createAndNavigate closed navOk freshId now maxPages
        (deleteKey pool (normalizeUrl url)) url (normalizeUrl url) := by
    simp [getPage, hlk, hdead]
  have hrhs : getPage closed navOk freshId now maxPages
      (deleteKey pool (normalizeUrl url)) url =
      createAndNavigate closed navOk freshId now maxPages
        (deleteKey pool (normalizeUrl url)) url (normalizeUrl url) := by
    simp [getPage, lookupPool_deleteKey_self]
  constructor
  · rw [hlhs, createAndNavigate_result]
    exact hfresh
  · rw [hlhs, hrhs]

/-- Example pool holding a single (dead) page for the C4 witness. -/
def poolC4 : Pool := [("https://example.com/", ⟨3, "https://example.com/", 0⟩)]

theorem getPage_dead_self_healing_witness :
    (getPage (fun p => p == 3) true 7 50 5 poolC4 "https://example.com").result.pageOf ≠
      3 ∧
    getPage (fun p => p == 3) true 7 50 5 poolC4 "https://example.com" =
      getPage (fun p => p == 3) true 7 50 5
        (deleteKey poolC4 (normalizeUrl "https://example.com")) "https://example.com" :=
  getPage_dead_self_healing (fun p => p == 3) true 7 50 5 poolC4 "https://example.com"
    ⟨3, "https://example.com/", 0⟩ (by decide) (by decide) (by decide)

/-- Claim C6 (counterexample): the claim says that after a navigation timeout
the created page "remains usable and pooled (registered in the pool)".  On
an empty pool, requesting `https://a.com` with the navigation timing out
creates page 1 but leaves the pool empty: the page is never registered
(`this.pages.set` is only reached after a successful `goto`). -/
theorem getPage_timeout_unpooled_cex :
    (getPage (fun _ => false) false 1 100 5 [] "https://a.com").result =
      GetPageResult.navTimeout 1 ∧
    (getPage (fun _ => false) false 1 100 5 [] "https://a.com").pool = [] ∧
    Effect.newPage 1 ∈ (getPage (fun _ => false) false 1 100 5 [] "https://a.com").effects :=
  ⟨rfl, rfl, by decide⟩

/-- Claim C6 (amended): when navigation inside `getPage` times out, the
failure is surfaced to the caller as a navigation-timeout rejection and the
pool is not corrupted (it is exactly the post-eviction pool, still with no
entry for the URL) — but the page created for the request is **not**
registered in the pool: it was opened (`newPage` effect) and never closed,
remaining open yet unpooled. -/
theorem getPage_timeout_not_pooled (closed : Nat → Bool) (freshId now maxPages : Nat)
    (pool : Pool) (url : String)
    (hmiss : lookupPool pool (normalizeUrl url) = none)
    (hfresh : ∀ e ∈ pool, e.2.pageId ≠ freshId) :
    (getPage closed false freshId now maxPages pool url).result =
      GetPageResult.navTimeout freshId ∧
    (getPage closed false freshId now maxPages pool url).pool =
      (cleanupOldPagesIfNeeded closed maxPages pool).1 ∧
    lookupPool (getPage closed false freshId now maxPages pool url).pool
      (normalizeUrl url) = none ∧
    Effect.newPage freshId ∈ (getPage closed false freshId now maxPages pool url).effects ∧
    Effect.closePage freshId ∉
      (getPage closed false freshId now maxPages pool url).effects := by
  have hunf : getPage closed false freshId now maxPages pool url =
      createAndNavigate closed false freshId now maxPages pool url (normalizeUrl url) := by
    simp [getPage, hmiss]
  have hpool : (createAndNavigate closed false freshId now maxPages pool url
      (normalizeUrl url)).pool = (cleanupOldPagesIfNeeded closed maxPages pool).1 := rfl
  have heff : (createAndNavigate closed false freshId now maxPages pool url
      (normalizeUrl url)).effects =
      (cleanupOldPagesIfNeeded closed maxPages pool).2 ++
        [Effect.newPage freshId, Effect.goto freshId url] := rfl
  refine ⟨by rw [hunf]; rfl, ?_, ?_, ?_, ?_⟩
  · rw [hunf, hpool]
  · rw [hunf, hpool]
    exact lookupPool_sublist_none (cleanup_fst_sublist closed maxPages pool) hmiss
  · rw [hunf, heff]
    simp
  · rw [hunf, heff]
    intro hmem
    rcases List.mem_append.mp hmem with hcl | hcl
    · rcases cleanup_effects_mem hcl with ⟨x, hx, hEq⟩
      injection hEq with h'
      exact hfresh x hx h'.symm
    · rcases List.mem_cons.mp hcl with h | h
      · exact Effect.noConfusion h
      · rcases List.mem_cons.mp h with h' | h'
        · exact Effect.noConfusion h'
        · exact absurd h' (by simp)

/-- Example pool for the C6 witness. -/
def poolC6 : Pool := [("k", ⟨2, "k", 0⟩)]

theorem getPage_timeout_not_pooled_witness :
    (getPage (fun _ => false) false 9 100 5 poolC6 "https://b.com").result =
      GetPageResult.navTimeout 9 ∧
    (getPage (fun _ => false) false 9 100 5 poolC6 "https://b.com").pool =
      (cleanupOldPagesIfNeeded (fun _ => false) 5 poolC6).1 ∧
    lookupPool (getPage (fun _ => false) false 9 100 5 poolC6 "https://b.com").pool
      (normalizeUrl "https://b.com") = none ∧
    Effect.newPage 9 ∈
      (getPage (fun _ => false) false 9 100 5 poolC6 "https://b.com").effects ∧
    Effect.closePage 9 ∉
      (getPage (fun _ => false) false 9 100 5 poolC6 "https://b.com").effects :=
  getPage_timeout_not_pooled (fun _ => false) 9 100 5 poolC6 "https://b.com" rfl
    (by decide)

/-- Claim C10: on a miss, `getPage` issues the navigation with the caller's
raw, un-normalized `url` string (every `goto` effect carries exactly `url`),
while the pool entry it registers is keyed by `normalizeUrl url`. -/
theorem getPage_navigates_raw_url (closed : Nat → Bool) (freshId now maxPages : Nat)
    (pool : Pool) (url : String)
    (hmiss : lookupPool pool (normalizeUrl url) = none) :
    Effect.goto freshId url ∈ (getPage closed true freshId now maxPages pool url).effects ∧
    (∀ p u', Effect.goto p u' ∈ (getPage closed true freshId now maxPages pool url).effects →
      u' = url) ∧
    lookupPool (getPage closed true freshId now maxPages pool url).pool (normalizeUrl url) =
      some ⟨freshId, normalizeUrl url, now⟩ := by
  have hunf : getPage closed true freshId now maxPages pool url =
      createAndNavigate closed true freshId now maxPages pool url (normalizeUrl url) := by
    simp [getPage, hmiss]
  have heff : (createAndNavigate closed true freshId now maxPages pool url
      (normalizeUrl url)).effects =
      (cleanupOldPagesIfNeeded closed maxPages pool).2 ++
        [Effect.newPage freshId, Effect.goto freshId url] := rfl
  have hpool : (createAndNavigate closed true freshId now maxPages pool url
      (normalizeUrl url)).pool =
      insertEntry (cleanupOldPagesIfNeeded closed maxPages pool).1 (normalizeUrl url)
        ⟨freshId, normalizeUrl url, now⟩ := rfl
  refine ⟨?_, ?_, ?_⟩
  · rw [hunf, heff]
    simp
  · intro p u' hmem
    rw [hunf, heff] at hmem
    rcases List.mem_append.mp hmem with hcl | hcl
    · rcases cleanup_effects_mem hcl with ⟨x, _, hEq⟩
      exact Effect.noConfusion hEq
    · rcases List.mem_cons.mp hcl with h | h
      · exact Effect.noConfusion h
      · rcases List.mem_cons.mp h with h' | h'
        · injection h' with h1 h2
        · exact absurd h' (by simp)
  · rw [hunf, hpool]
    exact lookupPool_insertEntry_self _
      (lookupPool_sublist_none (cleanup_fst_sublist closed maxPages pool) hmiss)

theorem getPage_navigates_raw_url_witness :
    Effect.goto 4 "example.com" ∈
      (getPage (fun _ => false) true 4 77 5 [] "example.com").effects ∧
    lookupPool (getPage (fun _ => false) true 4 77 5 [] "example.com").pool
      (normalizeUrl "example.com") = some ⟨4, normalizeUrl "example.com", 77⟩ :=
  ⟨(getPage_navigates_raw_url (fun _ => false) 4 77 5 [] "example.com" rfl).1,
   (getPage_navigates_raw_url (fun _ => false) 4 77 5 [] "example.com" rfl).2.2⟩

/-! ## URL lemmas -/

theorem dropPre_append (p r : List Char) : dropPre p (p ++ r) = some r := by
  induction p with
  | nil => rfl
  | cons c cs ih => simp [dropPre, ih]

theorem dropPre_http_of_https (cs : List Char) :
    dropPre ['h', 't', 't', 'p', ':', '/', '/']
      (['h', 't', 't', 'p', 's', ':', '/', '/'] ++ cs) = none := rfl

theorem takeWhile_append_all {p : Char → Bool} {l1 : List Char} (l2 : List Char)
    (h : l1.all p = true) : (l1 ++ l2).takeWhile p = l1 ++ l2.takeWhile p := by
  induction l1 with
  | nil => rfl
  | cons c cs ih =>
    have h' : p c = true ∧ cs.all p = true := by simpa using h
    simp only [List.cons_append, List.takeWhile_cons, h'.1, if_true]
    rw [ih h'.2]

theorem all_takeWhile (p : Char → Bool) (l : List Char) :
    (l.takeWhile p).all p = true := by
  induction l with
  | nil => rfl
  | cons c cs ih =>
    by_cases h : p c = true <;> simp [List.takeWhile_cons, h, ih]

theorem parseAfterScheme_inv {scheme cs : List Char} {u : ParsedUrl}
    (h : parseAfterScheme scheme cs = some u) :
    u.scheme = scheme ∧ u.host ≠ [] ∧ u.host.all isHostChar = true ∧
    (u.rest = [] ∨ ((∃ t, u.rest = '/' :: t) ∧ u.rest.all isPathChar = true)) := by
  simp only [parseAfterScheme] at h
  by_cases he : (cs.takeWhile isHostChar).isEmpty = true
  · rw [if_pos he] at h
    exact Option.noConfusion h
  · rw [if_neg he] at h
    have hhost : cs.takeWhile isHostChar ≠ [] := fun hc => he (by rw [hc]; rfl)
    by_cases hre : (cs.drop (cs.takeWhile isHostChar).length).isEmpty = true
    · rw [if_pos hre] at h
      injection h with h'
      subst h'
      exact ⟨rfl, hhost, all_takeWhile _ _, Or.inl rfl⟩
    · rw [if_neg hre] at h
      by_cases hcond : ((cs.drop (cs.takeWhile isHostChar).length).head? == some '/' &&
          (cs.drop (cs.takeWhile isHostChar).length).all isPathChar) = true
      · rw [if_pos hcond] at h
        injection h with h'
        subst h'
        have hc := Bool.and_eq_true_iff.mp hcond
        have hhead : (cs.drop (cs.takeWhile isHostChar).length).head? = some '/' := by
          simpa using hc.1
        have hall := hc.2
        rcases hd : cs.drop (cs.takeWhile isHostChar).length with _ | ⟨c, t⟩
        · rw [hd] at hhead
          exact Option.noConfusion hhead
        · rw [hd] at hhead hall
          have hcch : c = '/' := by simpa using hhead
          subst hcch
          exact ⟨rfl, hhost, all_takeWhile _ _, Or.inr ⟨⟨t, rfl⟩, hall⟩⟩
      · rw [if_neg hcond] at h
        exact Option.noConfusion h

theorem parseAfterScheme_host_slash {scheme host : List Char} {t : List Char}
    (hh : host ≠ []) (hha : host.all isHostChar = true)
    (hRa : ('/' :: t).all isPathChar = true) :
    parseAfterScheme scheme (host ++ '/' :: t) = some ⟨scheme, host, '/' :: t⟩ := by
  have h1 : (host ++ '/' :: t).takeWhile isHostChar = host := by
    rw [takeWhile_append_all _ hha]
    simp [List.takeWhile_cons, isHostChar]
  simp only [parseAfterScheme, h1, List.drop_left, List.isEmpty_eq_false.mpr hh, hRa]
  simp

theorem parseUrl_inv {cs : List Char} {u : ParsedUrl} (h : parseUrl cs = some u) :
    (u.scheme = "http".data ∨ u.scheme = "https".data) ∧ u.host ≠ [] ∧
    u.host.all isHostChar = true ∧
    (u.rest = [] ∨ ((∃ t, u.rest = '/' :: t) ∧ u.rest.all isPathChar = true)) := by
  unfold parseUrl at h
  split at h
  · obtain ⟨hsch, h2⟩ := parseAfterScheme_inv h
    exact ⟨Or.inl hsch, h2⟩
  · split at h
    · obtain ⟨hsch, h2⟩ := parseAfterScheme_inv h
      exact ⟨Or.inr hsch, h2⟩
    · exact Option.noConfusion h

/-- The path component `href` serializes: the root path when the parsed path
is empty, the parsed path otherwise.  It always starts with `/`. -/
def hrefRest (u : ParsedUrl) : List Char :=
  if u.rest.isEmpty then "/".data else u.rest

theorem hrefRest_slash {u : ParsedUrl}
    (hr : u.rest = [] ∨ ((∃ t, u.rest = '/' :: t) ∧ u.rest.all isPathChar = true)) :
    ∃ t, hrefRest u = '/' :: t ∧ ('/' :: t).all isPathChar = true := by
  rcases hr with hnil | ⟨⟨t, ht⟩, hall⟩
  · exact ⟨[], by simp [hrefRest, hnil], by decide⟩
  · refine ⟨t, by simp [hrefRest, ht], ?_⟩
    rw [← ht]
    exact hall

theorem parseUrl_hrefOf {u : ParsedUrl}
    (hs : u.scheme = "http".data ∨ u.scheme = "https".data)
    (hh : u.host ≠ []) (hha : u.host.all isHostChar = true)
    (hr : u.rest = [] ∨ ((∃ t, u.rest = '/' :: t) ∧ u.rest.all isPathChar = true)) :
    parseUrl (hrefOf u) = some ⟨u.scheme, u.host, hrefRest u⟩ := by
  obtain ⟨t, hR, hRa⟩ := hrefRest_slash hr
  have hrefEq : hrefOf u = u.scheme ++ "://".data ++ u.host ++ hrefRest u := rfl
  rcases hs with hsch | hsch
  · have hshape : hrefOf u = "http://".data ++ (u.host ++ '/' :: t) := by
      rw [hrefEq, hsch, hR, List.append_assoc,
        show ("http".data ++ "://".data : List Char) = "http://".data from by decide]
    rw [hshape]
    simp only [parseUrl, dropPre_append, parseAfterScheme_host_slash hh hha hRa]
    simp [hsch, hR]
  · have hshape : hrefOf u = "https://".data ++ (u.host ++ '/' :: t) := by
      rw [hrefEq, hsch, hR, List.append_assoc,
        show ("https".data ++ "://".data : List Char) = "https://".data from by decide]
    rw [hshape]
    simp only [parseUrl, dropPre_http_of_https, dropPre_append,
      parseAfterScheme_host_slash hh hha hRa]
    simp [hsch, hR]

theorem normalizeUrl_of_parse {s : String} {u : ParsedUrl}
    (h : parseUrl s.data = some u) : normalizeUrl s = String.mk (hrefOf u) := by
  unfold normalizeUrl
  rw [h]

/-- Re-serializing after replacing the path with its `href` form is the
identity: the `href` path is already non-empty. -/
theorem hrefOf_hrefRest (u : ParsedUrl)
    (hr : u.rest = [] ∨ ((∃ t, u.rest = '/' :: t) ∧ u.rest.all isPathChar = true)) :
    hrefOf ⟨u.scheme, u.host, hrefRest u⟩ = hrefOf u := by
  rcases hr with hnil | ⟨⟨t, ht⟩, _⟩
  · simp only [hrefOf, hrefRest, hnil]
    rfl
  · simp only [hrefOf, hrefRest, ht]
    rfl

/-- Claim C5 (counterexample): URL normalization is not idempotent on every
input.  For the bare host `example.com` the parse fails and the fallback
returns `'https://' + url` without re-parsing, i.e. `https://example.com`
with no trailing slash; a second normalization parses it and serializes the
root path, yielding `https://example.com/`. -/
theorem normalizeUrl_not_idempotent :
    normalizeUrl (normalizeUrl "example.com") ≠ normalizeUrl "example.com" ∧
    normalizeUrl "example.com" = "https://example.com" ∧
    normalizeUrl (normalizeUrl "example.com") = "https://example.com/" := by
  refine ⟨?_, by decide, by decide⟩
  decide

/-- Claim C5 (amended): normalization is idempotent on every string the URL
parser accepts (in particular on every string `normalizeUrl` itself produces
through the parse branch), and normalizing a bare host yields the
secure-scheme absolute URL `'https://' + host` — without a trailing slash,
because the fallback does not re-run normalization, which is also why
idempotence fails on such inputs. -/
theorem normalizeUrl_idempotent_on_parsed :
    (∀ s : String, (parseUrl s.data).isSome = true →
      normalizeUrl (normalizeUrl s) = normalizeUrl s) ∧
    normalizeUrl "example.com" = "https://example.com" := by
  constructor
  · intro s hs
    obtain ⟨u, hu⟩ := Option.isSome_iff_exists.mp hs
    obtain ⟨hsch, hh, hha, hr⟩ := parseUrl_inv hu
    have hparse := parseUrl_hrefOf hsch hh hha hr
    rw [normalizeUrl_of_parse hu]
    have hdata : (String.mk (hrefOf u)).data = hrefOf u := rfl
    simp only [normalizeUrl, hdata, hparse]
    rw [hrefOf_hrefRest u hr]
  · decide

theorem normalizeUrl_idempotent_witness :
    normalizeUrl (normalizeUrl "https://example.com") =
      normalizeUrl "https://example.com" :=
  normalizeUrl_idempotent_on_parsed.1 "https://example.com" (by decide)

end BrowserMgr
